import Mathlib

/-!
Verification development for the `duet` terminal-sharing engine.

The definitions below are a shallow embedding of the Go sources:
`internal/terminal` (shared pty terminal: render cache, run-length color
encoding, subscriber broadcast, resize, write, close), `internal/room`
(room / client list) and `internal/room/manager.go` (registry, slugify,
workspace naming, leave-room teardown).  The vt10x screen-buffer library is
external to the repository; the few facts needed about it (grid of styled
cells, resize reflow) are modelled from the specification and marked as such.
-/

/-! ## Screen buffer model (vt10x state, external library) -/

/-- One screen cell as exposed by the vt10x emulator: a rune and a
foreground/background color id (`vt10x.Color`, an unsigned integer). -/
structure VCell where
  ch : Char
  fg : Nat
  bg : Nat
deriving DecidableEq, Repr

/-- Modelled from the spec: a blank cell carries a space and the emulator's
default color ids, which lie outside the emittable range `1..255`. -/
def blankCell : VCell := { ch := ' ', fg := 257, bg := 258 }

/-- The vt10x terminal state observed by `Terminal.Render`: grid dimensions,
cells, and cursor position/visibility. -/
structure VT where
  cols : Nat
  rows : Nat
  cells : List (List VCell)
  cursorX : Nat
  cursorY : Nat
  cursorVisible : Bool
deriving DecidableEq, Repr

/-- `vt.Cell(x, y)`: cell lookup, defaulting to a blank cell. -/
def vtCell (v : VT) (x y : Nat) : VCell :=
  (v.cells.getD y []).getD x blankCell

/-- `char := cell.Char; if char == 0 { char = ' ' }` from `Render`. -/
def cellChar (c : VCell) : Char :=
  if c.ch = '\x00' then ' ' else c.ch

/-- Modelled from the spec: `vt10x.New(WithSize(w, h))` (library outside the
repository) creates a blank `w × h` grid with the cursor visible at the
origin. -/
def vtNew (w h : Nat) : VT :=
  { cols := w, rows := h,
    cells := (List.range h).map (fun _ => (List.range w).map (fun _ => blankCell)),
    cursorX := 0, cursorY := 0, cursorVisible := true }

/-- Modelled from the spec: `vt10x.Terminal.Resize` (library outside the
repository) reflows the visible grid to the new dimensions — surviving cells
are kept, new cells are blank — and clamps the cursor to bounds. -/
def vtResize (v : VT) (w h : Nat) : VT :=
  { cols := w, rows := h,
    cells := (List.range h).map (fun y => (List.range w).map (fun x => vtCell v x y)),
    cursorX := min v.cursorX (w - 1), cursorY := min v.cursorY (h - 1),
    cursorVisible := v.cursorVisible }

/-! ## Escape sequences (`fgColor`, `bgColor`, reset, reverse video) -/

/-- The decimal digit character for `d < 10`. -/
def digitChar (d : Nat) : Char := Char.ofNat (48 + d)

/-- Decimal digits, most significant first (the `%d` of `fmt.Sprintf`);
structural recursion on a fuel bound that `decDigits` instantiates amply. -/
def decDigitsAux : Nat → Nat → List Char
  | 0, _ => []
  | fuel + 1, n =>
    if n < 10 then [digitChar n]
    else decDigitsAux fuel (n / 10) ++ [digitChar (n % 10)]

/-- Decimal digits of `n`, most significant first. -/
def decDigits (n : Nat) : List Char := decDigitsAux (n + 1) n

/-- `"\x1b[0m"`. -/
def escReset : List Char := ['\x1b', '[', '0', 'm']

/-- `"\x1b[7m"` (reverse-video fallback for the cursor). -/
def escRev : List Char := ['\x1b', '[', '7', 'm']

/-- `fgColor` from the source: ANSI 30–37 for `c < 8`, 90–97 for `c < 16`,
otherwise the 256-color form `38;5;c`. -/
def fgEsc (c : Nat) : List Char :=
  if c < 8 then '\x1b' :: '[' :: (decDigits (30 + c) ++ ['m'])
  else if c < 16 then '\x1b' :: '[' :: (decDigits (90 + (c - 8)) ++ ['m'])
  else '\x1b' :: '[' :: '3' :: '8' :: ';' :: '5' :: ';' :: (decDigits c ++ ['m'])

/-- `bgColor` from the source: ANSI 40–47, 100–107, or `48;5;c`. -/
def bgEsc (c : Nat) : List Char :=
  if c < 8 then '\x1b' :: '[' :: (decDigits (40 + c) ++ ['m'])
  else if c < 16 then '\x1b' :: '[' :: (decDigits (100 + (c - 8)) ++ ['m'])
  else '\x1b' :: '[' :: '4' :: '8' :: ';' :: '5' :: ';' :: (decDigits c ++ ['m'])

/-! ## The rendering algorithm (`Terminal.Render` inner loops) -/

/-- Per-row rendering state of `Render`: the previously emitted color pair,
whether an unfinished style escape is in effect, and the output so far. -/
structure RSt where
  prevFG : Nat
  prevBG : Nat
  inStyle : Bool
  out : List Char
deriving Repr

/-- Whether the `needsColorChange` block leaves a style escape in effect:
true iff a foreground or background escape was emitted (`fg != 0 && fg < 256`
resp. `bg != 0 && bg < 256`). -/
def styledPair (fg bg : Nat) : Bool :=
  (fg != 0 && decide (fg < 256)) || (bg != 0 && decide (bg < 256))

/-- The escapes emitted by the `needsColorChange` block, in source order:
a reset when a style was in effect, then the foreground and background
escapes when their color is in `1..255`, then the `\x1b[7m` fallback when the
cell is the cursor and no color escape was emitted. -/
def styleChange (isCursor : Bool) (fg bg : Nat) (inStyle : Bool) : List Char × Bool :=
  let resetPart := if inStyle then escReset else []
  let fgPart := if fg != 0 && decide (fg < 256) then fgEsc fg else []
  let bgPart := if bg != 0 && decide (bg < 256) then bgEsc bg else []
  let revPart := if isCursor && !styledPair fg bg then escRev else []
  (resetPart ++ fgPart ++ bgPart ++ revPart,
   if isCursor && !styledPair fg bg then true else styledPair fg bg)

/-- One iteration of the inner `for x` loop of `Render`: swap fg/bg at the
cursor cell, emit escapes when the pair differs from the previous one (or the
cursor fallback triggers), then write the cell character. -/
def renderStep (v : VT) (y : Nat) (st : RSt) (x : Nat) : RSt :=
  let cell := vtCell v x y
  let ch := cellChar cell
  let isCursor := v.cursorVisible && x == v.cursorX && y == v.cursorY
  let fg := if isCursor then cell.bg else cell.fg
  let bg := if isCursor then cell.fg else cell.bg
  let needsColorChange := fg != st.prevFG || bg != st.prevBG || (isCursor && !st.inStyle)
  if needsColorChange then
    let p := styleChange isCursor fg bg st.inStyle
    { prevFG := fg, prevBG := bg, inStyle := p.2, out := st.out ++ p.1 ++ [ch] }
  else
    { st with out := st.out ++ [ch] }

/-- One row of `Render`: fold the cells at `x ∈ [0, cols)` starting from the
zero color pair, then close any escape still in effect. -/
def renderRowData (v : VT) (y : Nat) : List Char :=
  let st := (List.range v.cols).foldl (renderStep v y) ⟨0, 0, false, []⟩
  st.out ++ (if st.inStyle then escReset else [])

/-- The full frame: rows in order, joined with newlines (`Render` writes a
`"\n"` after every row but the last). -/
def renderFrameData (v : VT) : List Char :=
  List.intercalate ['\n'] ((List.range v.rows).map (renderRowData v))

/-- The frame as a string. -/
def renderFrame (v : VT) : String := String.mk (renderFrameData v)

/-! ## Spec-side interpreters of the rendered frame -/

/-- Scanner state transition over a chunk: are we inside an unfinished
`\x1b...m` escape sequence after reading it? -/
def escState : Bool → List Char → Bool
  | b, [] => b
  | true, c :: cs => if c = 'm' then escState false cs else escState true cs
  | false, c :: cs => if c = '\x1b' then escState true cs else escState false cs

/-- The visible characters of a chunk: characters of `\x1b...m` escape
sequences are dropped, everything else is kept. -/
def stripEscAux : Bool → List Char → List Char
  | _, [] => []
  | true, c :: cs => if c = 'm' then stripEscAux false cs else stripEscAux true cs
  | false, c :: cs =>
    if c = '\x1b' then stripEscAux true cs else c :: stripEscAux false cs

/-- Visible characters of a rendered chunk, escape sequences stripped. -/
def stripEsc (l : List Char) : List Char := stripEscAux false l

/-- For each visible character of a rendered chunk, whether the reverse-video
attribute is in effect when it is printed: `\x1b[7m` turns it on, `\x1b[0m`
turns it off, other escapes leave it unchanged.  The option holds the body of
the escape sequence currently being read, if any. -/
def revFlagsSt (rev : Bool) : Option (List Char) → List Char → List Bool
  | _, [] => []
  | none, c :: cs =>
    if c = '\x1b' then revFlagsSt rev (some []) cs
    else rev :: revFlagsSt rev none cs
  | some body, c :: cs =>
    if c = 'm' then
      revFlagsSt
        (if body = ['[', '7'] then true
         else if body = ['[', '0'] then false else rev) none cs
    else revFlagsSt rev (some (body ++ [c])) cs

/-- Reverse-video flags of every visible character of a frame. -/
def revFlags (s : String) : List Bool := revFlagsSt false none s.data

/-- A chunk is escape-closed when the scanner both ignores it entirely and
ends outside any escape; such chunks also contain no newline. -/
def EscOk (l : List Char) : Prop :=
  stripEscAux false l = [] ∧ escState false l = false ∧ '\n' ∉ l

/-- The cell characters a well-formed emulator state can hold: never a
newline, never an escape character (vt10x interprets control bytes instead of
storing them in cells). -/
def vtWF (v : VT) : Prop :=
  ∀ x y, cellChar (vtCell v x y) ≠ '\x1b' ∧ cellChar (vtCell v x y) ≠ '\n'

/-- The style escapes a uniform color pair earns once at the start of a run:
the foreground escape when `fg ∈ 1..255`, then the background escape when
`bg ∈ 1..255`. -/
def stylePre (f b : Nat) : List Char :=
  (if f != 0 && decide (f < 256) then fgEsc f else []) ++
  (if b != 0 && decide (b < 256) then bgEsc b else [])

/-! ## The shared terminal (`internal/terminal`) -/

/-- The `Terminal` struct: the vt10x state (`none` before `Start`), whether
the pty handle is non-nil, target dimensions, working directory, the
subscriber notification queues (each identified by a fresh id and holding the
number of pending notifications, at most its capacity 1), the closed flag and
the render cache.  `nextCh` supplies fresh queue identities. -/
structure Terminal where
  vt : Option VT
  ptmx : Bool
  width : Int
  height : Int
  workDir : String
  subscribers : List (Nat × Nat)
  nextCh : Nat
  closed : Bool
  lastRender : String
  dirty : Bool
  ptyCols : Nat
  ptyRows : Nat
deriving Repr, DecidableEq

/-- `New(width, height, workDir)`: clamp non-positive dimensions to 80×24 and
an empty working directory to `/app`; no process, no pty, no subscribers. -/
def Terminal.New (width height : Int) (workDir : String) : Terminal :=
  let width := if width < 1 then 80 else width
  let height := if height < 1 then 24 else height
  let workDir := if workDir = "" then "/app" else workDir
  { vt := none, ptmx := false, width := width, height := height,
    workDir := workDir, subscribers := [], nextCh := 0, closed := false,
    lastRender := "", dirty := false, ptyCols := 0, ptyRows := 0 }

/-- `Subscribe()`: make a fresh channel of capacity 1 (initially empty),
register it, and return it. -/
def Terminal.Subscribe (t : Terminal) : Nat × Terminal :=
  (t.nextCh,
   { t with subscribers := t.subscribers ++ [(t.nextCh, 0)],
            nextCh := t.nextCh + 1 })

/-- `Unsubscribe(ch)`: drop the channel from the subscriber set. -/
def Terminal.Unsubscribe (t : Terminal) (ch : Nat) : Terminal :=
  { t with subscribers := t.subscribers.filter (fun p => p.1 ≠ ch) }

/-- The non-blocking send of `broadcast`'s `select`/`default`: enqueue into a
capacity-1 channel when there is room, otherwise leave the channel as-is. -/
def trySend (pending : Nat) : Nat :=
  if pending < 1 then pending + 1 else pending

/-- `broadcast()`: non-blocking send to every current subscriber channel. -/
def Terminal.broadcast (t : Terminal) : Terminal :=
  { t with subscribers := t.subscribers.map (fun p => (p.1, trySend p.2)) }

/-- `Start()`: create the vt10x screen at the current dimensions and spawn
the shell on a pty of the same size; `spawnOk` stands for the external
`pty.StartWithSize` outcome, whose failure is returned to the caller. -/
def Terminal.Start (t : Terminal) (spawnOk : Bool) : Except String Terminal :=
  let t := { t with vt := some (vtNew t.width.toNat t.height.toNat) }
  if spawnOk then
    .ok { t with ptmx := true, ptyCols := t.width.toNat, ptyRows := t.height.toNat }
  else
    .error "process spawn failed"

/-- `Write(data)`: a nil pty silently discards the write and returns
`(0, nil)`; otherwise the bytes go to the pty (external I/O, modelled as a
successful write of all bytes) and the terminal state is untouched. -/
def Terminal.Write (t : Terminal) (data : List Nat) : (Nat × Option String) × Terminal :=
  if t.ptmx = false then ((0, none), t)
  else ((data.length, none), t)

/-- `Render()`: empty string before `Start`; otherwise the cached frame when
the buffer is clean and a cache exists, else a fresh frame which is cached
with the dirty flag cleared. -/
def Terminal.Render (t : Terminal) : String × Terminal :=
  match t.vt with
  | none => ("", t)
  | some v =>
    if t.dirty = false ∧ t.lastRender ≠ "" then (t.lastRender, t)
    else
      let s := renderFrame v
      (s, { t with lastRender := s, dirty := false })

/-- `Resize(width, height)`: ignore non-positive dimensions entirely;
otherwise store the new dimensions, invalidate the render cache, resize the
screen buffer, and propagate the window size to the pty when present. -/
def Terminal.Resize (t : Terminal) (width height : Int) : Terminal :=
  if width < 1 ∨ height < 1 then t
  else
    let t := { t with width := width, height := height, dirty := true,
                      lastRender := "",
                      vt := t.vt.map (fun v => vtResize v width.toNat height.toNat) }
    if t.ptmx then { t with ptyCols := width.toNat, ptyRows := height.toNat }
    else t

/-- `Close()`: mark closed, close and clear every subscriber channel, close
the pty (nil-ing the handle) and kill the child process.  The returned list
is the set of channels that were closed. -/
def Terminal.Close (t : Terminal) : Terminal × List Nat :=
  ({ t with closed := true, subscribers := [], ptmx := false },
   t.subscribers.map Prod.fst)

/-- `Size()`. -/
def Terminal.Size (t : Terminal) : Int × Int := (t.width, t.height)

/-! ## Rooms and clients (`internal/room/room.go`) -/

/-- An event relayed inside a room. -/
structure RoomEvent where
  type : String
  username : String
  data : String
deriving DecidableEq, Repr

/-- One message of the room's assistant conversation log. -/
structure AIMessage where
  role : String
  userID : String
  text : String
  ts : Int
deriving DecidableEq, Repr

/-- A connected user: id, display name, host flag, and the identity of its
buffered event channel (`none` models a nil channel). -/
structure Client where
  ID : String
  Username : String
  IsHost : Bool
  Events : Option Nat
deriving DecidableEq, Repr

/-- A pairing session: id, description, host, the ordered connection list,
the optional shared terminal, the assistant log and the workspace path. -/
structure Room where
  ID : String
  Description : String
  Host : String
  Connections : List Client
  Terminal : Option Terminal
  AIMessages : List AIMessage
  WorkspaceDir : String
deriving Repr, DecidableEq

/-- The slice-deletion helper: overwrite index `i` with the LAST element and
truncate (`s[i] = s[len(s)-1]; return s[:len(s)-1]`).  It does not preserve
order.  (Go panics on an empty slice; callers only reach it with a found
index, so the empty case is mapped to the empty list.) -/
def remove (s : List Client) (i : Nat) : List Client :=
  match s.getLast? with
  | none => []
  | some last => (s.set i last).dropLast

/-- The non-blocking event send: deliver when the channel has room, drop the
event otherwise.  `sends` below records the deliveries actually attempted on
a non-nil channel; fullness is resolved by the channel's own state, which is
outside the room structure, so an attempted send is logged as a pair of the
channel identity and the event. -/
def eventSendsTo (conns : List Client) (excludeID : String) (ev : RoomEvent) :
    List (Nat × RoomEvent) :=
  conns.filterMap (fun c =>
    if c.ID ≠ excludeID then c.Events.map (fun q => (q, ev)) else none)

/-- As `eventSendsTo`, but with no excluded id (the `RemoveClient` loop has
no id check). -/
def eventSendsAll (conns : List Client) (ev : RoomEvent) : List (Nat × RoomEvent) :=
  conns.filterMap (fun c => c.Events.map (fun q => (q, ev)))

/-- `Room.AddClient`: close and swap-remove the first existing client with
the same id (reconnect semantics), append the new client, then send a
non-blocking `join` event to every other client.  Returns the new connection
list, the list of channels closed, and the attempted event sends. -/
def Room.AddClient (r : Room) (client : Client) :
    Room × List Nat × List (Nat × RoomEvent) :=
  let idx := r.Connections.findIdx? (fun c => c.ID == client.ID)
  let closedChs : List Nat :=
    match idx with
    | some i => ((r.Connections.getD i client).Events).toList
    | none => []
  let conns :=
    match idx with
    | some i => remove r.Connections i
    | none => r.Connections
  let conns := conns ++ [client]
  ({ r with Connections := conns },
   closedChs,
   eventSendsTo conns client.ID { type := "join", username := client.Username, data := "" })

/-- `Room.RemoveClient`: close and swap-remove the first client with the
given id, then send a non-blocking `leave` event to the remaining clients
(only when a client was actually removed). -/
def Room.RemoveClient (r : Room) (clientID : String) :
    Room × List Nat × List (Nat × RoomEvent) :=
  match r.Connections.findIdx? (fun c => c.ID == clientID) with
  | none => (r, [], [])
  | some i =>
    let removed := r.Connections.getD i ⟨"", "", false, none⟩
    let conns := remove r.Connections i
    ({ r with Connections := conns },
     removed.Events.toList,
     if removed.Username ≠ "" then
       eventSendsAll conns { type := "leave", username := removed.Username, data := "" }
     else [])

/-- `Room.BroadcastEvent`: non-blocking fan-out to every client except the
excluded one. -/
def Room.BroadcastEvent (r : Room) (event : RoomEvent) (excludeClientID : String) :
    List (Nat × RoomEvent) :=
  eventSendsTo r.Connections excludeClientID event

/-- `Room.GetClients`: a snapshot copy of the connection list. -/
def Room.GetClients (r : Room) : List Client := r.Connections

/-- `Room.ClientCount`. -/
def Room.ClientCount (r : Room) : Nat := r.Connections.length

/-! ## The manager/registry (`internal/room/manager.go`) -/

/-- The error taxonomy surfaced by the manager. -/
inductive MgrErr where
  | RoomNotFound
  | WorkspaceProvision
deriving DecidableEq, Repr

/-- The random name pools of `manager.go`. -/
def adjectives : List String :=
  ["swift", "happy", "clever", "brave", "cosmic", "bright", "mystic", "golden"]

/-- The noun pool. -/
def nouns : List String :=
  ["phoenix", "dragon", "tiger", "falcon", "wolf", "eagle", "panda", "orca"]

/-- `strings.TrimSpace` on our inputs: drop leading and trailing whitespace
characters. -/
def trimWS (l : List Char) : List Char :=
  ((l.dropWhile Char.isWhitespace).reverse.dropWhile Char.isWhitespace).reverse

/-- `strings.Trim(s, "-")`. -/
def trimDash (l : List Char) : List Char :=
  ((l.dropWhile (fun c => c = '-')).reverse.dropWhile (fun c => c = '-')).reverse

/-- Whether a character survives the `[^a-z0-9]+` replacement. -/
def isSlugChar (c : Char) : Bool :=
  ('a' ≤ c && c ≤ 'z') || ('0' ≤ c && c ≤ '9')

/-- `regexp.MustCompile("[^a-z0-9]+").ReplaceAllString(s, "-")`: each maximal
run of non-slug characters becomes a single dash.  The boolean records
whether the scan is currently inside such a run (whose dash was already
emitted). -/
def squashAux : Bool → List Char → List Char
  | _, [] => []
  | inRun, c :: cs =>
    if isSlugChar c then c :: squashAux false cs
    else if inRun then squashAux true cs
    else '-' :: squashAux true cs

/-- The `[^a-z0-9]+` → `-` replacement. -/
def squashRuns (l : List Char) : List Char := squashAux false l

/-- `slugify` from `manager.go`: lower-case the trimmed description, collapse
non-alphanumeric runs to dashes, trim dashes, and cut to 30 bytes (all
characters are single-byte at that point). -/
def slugify (s : String) : String :=
  let l := (trimWS s.data).map Char.toLower
  let l := squashRuns l
  let l := trimDash l
  let l := if l.length > 30 then l.take 30 else l
  String.mk l

/-- The workspace-name computation of `CreateRoom`: the slug of a non-empty
description, or a random `adjective-noun` pair when the description is empty
or its slug is empty.  `aIdx`/`nIdx` model the two `rand.Intn` draws. -/
def workspaceNameOf (description : String) (aIdx nIdx : Nat) : String :=
  let wn := if description ≠ "" then slugify description else ""
  if wn = "" then
    (adjectives.getD (aIdx % adjectives.length) "") ++ "-" ++
      (nouns.getD (nIdx % nouns.length) "")
  else wn

/-- The registry: room map plus the worker URL used for external cleanup. -/
structure Manager where
  rooms : List (String × Room)
  workerURL : String

/-- Map lookup on the registry (first binding of the key). -/
def lookupRoom (rs : List (String × Room)) (k : String) : Option Room :=
  match rs with
  | [] => none
  | (k', r) :: rest => if k' = k then some r else lookupRoom rest k

/-- Map update on the registry: replace the value at the key. -/
def updateRoom (rs : List (String × Room)) (k : String) (r : Room) :
    List (String × Room) :=
  rs.map (fun p => if p.1 = k then (k, r) else p)

/-- `Manager.CreateRoom`: compute the workspace name and directory, provision
the directory (template copy, falling back to `MkdirAll`; `copyOk` and
`mkdirOk` model the two external outcomes), and register the room under a
fresh id (`roomID` models the `uuid.New()` draw; `baseDirOk` models whether
`/app/workspaces` exists). -/
def Manager.CreateRoom (m : Manager) (host description : String)
    (roomID : String) (aIdx nIdx : Nat) (baseDirOk copyOk mkdirOk : Bool) :
    Except MgrErr (Room × Manager) :=
  let workspaceName := workspaceNameOf description aIdx nIdx
  let baseDir := if baseDirOk then "/app/workspaces" else "/tmp/duet-workspaces"
  let workspaceDir := baseDir ++ "/" ++ workspaceName
  if copyOk = false ∧ mkdirOk = false then
    .error MgrErr.WorkspaceProvision
  else
    let room : Room :=
      { ID := roomID, Description := description, Host := host,
        Connections := [], Terminal := none, AIMessages := [],
        WorkspaceDir := workspaceDir }
    .ok (room, { m with rooms := m.rooms ++ [(roomID, room)] })

/-- `Manager.GetRoom`: `ErrRoomNotFound` on a lookup miss. -/
def Manager.GetRoom (m : Manager) (roomID : String) : Except MgrErr Room :=
  match lookupRoom m.rooms roomID with
  | none => .error MgrErr.RoomNotFound
  | some r => .ok r

/-- `Manager.RoomCount`. -/
def Manager.RoomCount (m : Manager) : Nat := m.rooms.length

/-- The outcome of `Manager.LeaveRoom`: the returned teardown flag, the new
registry, whether the room's terminal was closed, the workspace directories
deleted from disk, and whether an asynchronous external cleanup was
triggered. -/
structure LeaveResult where
  tornDown : Bool
  manager : Manager
  closedTerminal : Bool
  removedDirs : List String
  externalCleanup : Bool

/-- `Manager.LeaveRoom`: remove the client; when the room drains to zero
clients, close its terminal (if any), delete the workspace directory,
fire-and-forget the external cleanup when a worker is configured, deregister
the room, and return true; otherwise return false with the room still
registered. -/
def Manager.LeaveRoom (m : Manager) (roomID clientID : String) : LeaveResult :=
  match lookupRoom m.rooms roomID with
  | none => ⟨false, m, false, [], false⟩
  | some room =>
    let room := (room.RemoveClient clientID).1
    if room.ClientCount = 0 then
      let closedT := room.Terminal.isSome
      let room := { room with Terminal := none }
      let dirs := if room.WorkspaceDir ≠ "" then [room.WorkspaceDir] else []
      ⟨true, { m with rooms := m.rooms.filter (fun p => p.1 ≠ roomID) },
       closedT, dirs, m.workerURL ≠ ""⟩
    else
      ⟨false, { m with rooms := updateRoom m.rooms roomID room }, false, [], false⟩

/-- The cursor test of the render loop body
(`cursorVisible && x == cursor.X && y == cursor.Y`). -/
def isCursorAt (v : VT) (x y : Nat) : Bool :=
  v.cursorVisible && x == v.cursorX && y == v.cursorY

/-- The foreground color the render loop emits for a cell: the cell's own
foreground, or its background when the cell is the cursor (reverse video). -/
def effFG (v : VT) (x y : Nat) : Nat :=
  if isCursorAt v x y then (vtCell v x y).bg else (vtCell v x y).fg

/-- The background color the render loop emits for a cell. -/
def effBG (v : VT) (x y : Nat) : Nat :=
  if isCursorAt v x y then (vtCell v x y).fg else (vtCell v x y).bg

/-! ## Concrete states used by witnesses and counterexamples -/

/-- A lowercase ASCII letter. -/
def isLowerAlpha (c : Char) : Bool := 'a' ≤ c && c ≤ 'z'

/-- Whether a string matches `^[a-z]+-[a-z]+$`: a nonempty lowercase word, a
single dash, a nonempty lowercase word. -/
def checkPairName (s : String) : Bool :=
  let l := s.data
  let a := l.takeWhile (fun c => c ≠ '-')
  match l.dropWhile (fun c => c ≠ '-') with
  | '-' :: b =>
    !a.isEmpty && !b.isEmpty && a.all isLowerAlpha && b.all isLowerAlpha &&
      b.all (fun c => c ≠ '-')
  | _ => false

/-- A 1×2 screen whose cells are explicitly styled black-on-black (SGR
`30;40`), with the visible cursor on the left cell. -/
def vtRev : VT :=
  { cols := 2, rows := 1,
    cells := [[⟨' ', 0, 0⟩, ⟨' ', 0, 0⟩]],
    cursorX := 0, cursorY := 0, cursorVisible := true }

/-- A 1×3 screen with one uniformly green-on-yellow row and no visible
cursor. -/
def vtUniform : VT :=
  { cols := 3, rows := 1,
    cells := [[⟨'a', 2, 3⟩, ⟨'b', 2, 3⟩, ⟨'c', 2, 3⟩]],
    cursorX := 0, cursorY := 0, cursorVisible := false }

/-- A 1×3 screen with one uniformly green-on-yellow row and the visible
cursor on the middle cell. -/
def vtCursorMid : VT :=
  { cols := 3, rows := 1,
    cells := [[⟨'a', 2, 3⟩, ⟨'b', 2, 3⟩, ⟨'c', 2, 3⟩]],
    cursorX := 1, cursorY := 0, cursorVisible := true }

/-- A started terminal over a 3×2 blank screen. -/
def termStarted : Terminal :=
  { Terminal.New 80 24 "/w" with vt := some (vtNew 3 2), ptmx := true }

/-- Three attached clients. -/
def clientA : Client := { ID := "A", Username := "alice", IsHost := true, Events := some 1 }

/-- Second client. -/
def clientB : Client := { ID := "B", Username := "bob", IsHost := false, Events := some 2 }

/-- Third client. -/
def clientC : Client := { ID := "C", Username := "carol", IsHost := false, Events := some 3 }

/-- A room holding A, B and C in attach order. -/
def roomABC : Room :=
  { ID := "r1", Description := "demo", Host := "A",
    Connections := [clientA, clientB, clientC],
    Terminal := none, AIMessages := [], WorkspaceDir := "/w/demo" }

/-- A room holding only A. -/
def roomA : Room :=
  { ID := "r2", Description := "solo", Host := "A",
    Connections := [clientA],
    Terminal := none, AIMessages := [], WorkspaceDir := "/w/solo" }

/-- A reconnecting client with A's id but a fresh event queue. -/
def clientA2 : Client := { ID := "A", Username := "alice", IsHost := true, Events := some 9 }

/-- A registry holding `roomA` under its id. -/
def mgrA : Manager := { rooms := [("r2", roomA)], workerURL := "" }

/-- A registry holding `roomABC` under its id. -/
def mgrABC : Manager := { rooms := [("r1", roomABC)], workerURL := "" }

/-! ## Lemmas about the escape scanner -/

theorem escState_append (b : Bool) (l l' : List Char) :
    escState b (l ++ l') = escState (escState b l) l' := by
  induction l generalizing b with
  | nil => simp [escState]
  | cons c cs ih =>
    cases b <;> simp only [List.cons_append, escState] <;> split <;> apply ih

theorem stripEscAux_append (b : Bool) (l l' : List Char) :
    stripEscAux b (l ++ l') = stripEscAux b l ++ stripEscAux (escState b l) l' := by
  induction l generalizing b with
  | nil => simp [stripEscAux, escState]
  | cons c cs ih =>
    cases b <;> simp only [List.cons_append, stripEscAux, escState] <;> split <;>
      simp [ih]

theorem escOk_nil : EscOk [] := by
  refine ⟨rfl, rfl, by simp⟩

theorem escOk_append {l l' : List Char} (h : EscOk l) (h' : EscOk l') :
    EscOk (l ++ l') := by
  obtain ⟨h1, h2, h3⟩ := h
  obtain ⟨h1', h2', h3'⟩ := h'
  refine ⟨?_, ?_, ?_⟩
  · rw [stripEscAux_append, h1, h2, h1']
    rfl
  · rw [escState_append, h2, h2']
  · rw [List.mem_append]
    rintro (hc | hc)
    · exact h3 hc
    · exact h3' hc

theorem escTok_aux {body : List Char} (hm : 'm' ∉ body) :
    stripEscAux true (body ++ ['m']) = [] ∧ escState true (body ++ ['m']) = false := by
  induction body with
  | nil => exact ⟨rfl, rfl⟩
  | cons c cs ih =>
    have hc : c ≠ 'm' := fun h => hm (h ▸ List.mem_cons_self c cs)
    have hcs : 'm' ∉ cs := fun h => hm (List.mem_cons_of_mem c h)
    obtain ⟨ih1, ih2⟩ := ih hcs
    constructor
    · simpa [stripEscAux, hc] using ih1
    · simpa [escState, hc] using ih2

theorem escTok_ok {body : List Char} (hm : 'm' ∉ body) (hn : '\n' ∉ body) :
    EscOk ('\x1b' :: body ++ ['m']) := by
  obtain ⟨h1, h2⟩ := escTok_aux hm
  refine ⟨?_, ?_, ?_⟩
  · simpa [stripEscAux] using h1
  · simpa [escState] using h2
  · simp only [List.cons_append, List.mem_cons, List.mem_append,
      List.mem_singleton]
    rintro (h | h | h)
    · exact absurd h.symm (by decide)
    · exact hn h
    · exact absurd h.symm (by decide)

theorem decDigitsAux_good (fuel : Nat) :
    ∀ n, ∀ c ∈ decDigitsAux fuel n, c ≠ 'm' ∧ c ≠ '\x1b' ∧ c ≠ '\n' := by
  have hd : ∀ d, d < 10 → digitChar d ≠ 'm' ∧ digitChar d ≠ '\x1b' ∧
      digitChar d ≠ '\n' := by decide
  induction fuel with
  | zero => intro n c hc; simp [decDigitsAux] at hc
  | succ fuel ih =>
    intro n c hc
    rw [decDigitsAux] at hc
    revert hc
    split
    · intro hc
      rw [List.mem_singleton] at hc
      subst hc
      exact hd n (by omega)
    · intro hc
      rw [List.mem_append, List.mem_singleton] at hc
      rcases hc with hc | hc
      · exact ih (n / 10) c hc
      · subst hc
        exact hd (n % 10) (Nat.mod_lt _ (by omega))

theorem decDigits_good (n : Nat) :
    ∀ c ∈ decDigits n, c ≠ 'm' ∧ c ≠ '\x1b' ∧ c ≠ '\n' :=
  decDigitsAux_good (n + 1) n

theorem escOk_escReset : EscOk escReset := by
  refine ⟨rfl, rfl, by decide⟩

theorem escOk_escRev : EscOk escRev := by
  refine ⟨rfl, rfl, by decide⟩

theorem escOk_digitsTok (pre : List Char) (n : Nat)
    (hm : 'm' ∉ pre) (hn : '\n' ∉ pre) :
    EscOk ('\x1b' :: (pre ++ decDigits n) ++ ['m']) := by
  apply escTok_ok
  · rw [List.mem_append]
    rintro (h | h)
    · exact hm h
    · exact (decDigits_good n _ h).1 rfl
  · rw [List.mem_append]
    rintro (h | h)
    · exact hn h
    · exact (decDigits_good n _ h).2.2 rfl

theorem escOk_fgEsc (c : Nat) : EscOk (fgEsc c) := by
  unfold fgEsc
  split
  · simpa using escOk_digitsTok ['['] (30 + c) (by decide) (by decide)
  · split
    · simpa using escOk_digitsTok ['['] (90 + (c - 8)) (by decide) (by decide)
    · simpa using
        escOk_digitsTok ['[', '3', '8', ';', '5', ';'] c (by decide) (by decide)

theorem escOk_bgEsc (c : Nat) : EscOk (bgEsc c) := by
  unfold bgEsc
  split
  · simpa using escOk_digitsTok ['['] (40 + c) (by decide) (by decide)
  · split
    · simpa using escOk_digitsTok ['['] (100 + (c - 8)) (by decide) (by decide)
    · simpa using
        escOk_digitsTok ['[', '4', '8', ';', '5', ';'] c (by decide) (by decide)

theorem stripEscAux_single {c : Char} (hc : c ≠ '\x1b') :
    stripEscAux false [c] = [c] ∧ escState false [c] = false := by
  constructor
  · simp [stripEscAux, hc]
  · simp [escState, hc]

theorem escOk_styleChange (isCursor : Bool) (fg bg : Nat) (inStyle : Bool) :
    EscOk (styleChange isCursor fg bg inStyle).1 := by
  unfold styleChange
  refine escOk_append (escOk_append (escOk_append ?_ ?_) ?_) ?_
  · split
    · exact escOk_escReset
    · exact escOk_nil
  · split
    · exact escOk_fgEsc fg
    · exact escOk_nil
  · split
    · exact escOk_bgEsc bg
    · exact escOk_nil
  · split
    · exact escOk_escRev
    · exact escOk_nil

/-! ## The rendered row: structure lemmas -/

/-- Every step of the inner render loop appends an escape-closed chunk
followed by the cell's character. -/
theorem renderStep_out (v : VT) (y : Nat) (st : RSt) (x : Nat) :
    ∃ esc, EscOk esc ∧
      (renderStep v y st x).out = st.out ++ (esc ++ [cellChar (vtCell v x y)]) := by
  unfold renderStep
  dsimp only
  split <;> split
  · exact ⟨(styleChange (v.cursorVisible && x == v.cursorX && y == v.cursorY)
      (vtCell v x y).bg (vtCell v x y).fg st.inStyle).1,
      escOk_styleChange _ _ _ _, by simp⟩
  · exact ⟨[], escOk_nil, by simp⟩
  · exact ⟨(styleChange (v.cursorVisible && x == v.cursorX && y == v.cursorY)
      (vtCell v x y).fg (vtCell v x y).bg st.inStyle).1,
      escOk_styleChange _ _ _ _, by simp⟩
  · exact ⟨[], escOk_nil, by simp⟩

/-- The chunk a step appends, together with the character, is itself
escape-transparent: it strips to exactly the cell character and leaves the
scanner outside an escape. -/
theorem renderStep_chunk (v : VT) (y : Nat) (st : RSt) (x : Nat)
    (hE : cellChar (vtCell v x y) ≠ '\x1b')
    (hN : cellChar (vtCell v x y) ≠ '\n') :
    ∃ δ, (renderStep v y st x).out = st.out ++ δ ∧
      stripEscAux false δ = [cellChar (vtCell v x y)] ∧
      escState false δ = false ∧ '\n' ∉ δ := by
  obtain ⟨esc, hok, hout⟩ := renderStep_out v y st x
  obtain ⟨s1, s2, s3⟩ := hok
  obtain ⟨t1, t2⟩ := stripEscAux_single hE
  refine ⟨esc ++ [cellChar (vtCell v x y)], hout, ?_, ?_, ?_⟩
  · rw [stripEscAux_append, s1, s2, t1]
    rfl
  · rw [escState_append, s2, t2]
  · rw [List.mem_append, List.mem_singleton]
    rintro (h | h)
    · exact s3 h
    · exact hN h.symm

/-- Folding the render step over any cell sequence appends a chunk whose
visible characters are exactly the cells' characters, in order. -/
theorem foldSteps_strip (v : VT) (y : Nat) (xs : List Nat) (st : RSt)
    (hc : ∀ x ∈ xs, cellChar (vtCell v x y) ≠ '\x1b' ∧ cellChar (vtCell v x y) ≠ '\n') :
    ∃ δ, (xs.foldl (renderStep v y) st).out = st.out ++ δ ∧
      stripEscAux false δ = xs.map (fun x => cellChar (vtCell v x y)) ∧
      escState false δ = false ∧ '\n' ∉ δ := by
  induction xs generalizing st with
  | nil => exact ⟨[], by simp, rfl, rfl, by simp⟩
  | cons x xs ih =>
    obtain ⟨hE, hN⟩ := hc x (List.mem_cons_self x xs)
    obtain ⟨δ₁, hout₁, hstrip₁, hst₁, hn₁⟩ := renderStep_chunk v y st x hE hN
    obtain ⟨δ₂, hout₂, hstrip₂, hst₂, hn₂⟩ :=
      ih (renderStep v y st x) (fun a ha => hc a (List.mem_cons_of_mem x ha))
    refine ⟨δ₁ ++ δ₂, ?_, ?_, ?_, ?_⟩
    · rw [List.foldl_cons, hout₂, hout₁, List.append_assoc]
    · rw [stripEscAux_append, hstrip₁, hst₁, hstrip₂, List.map_cons]
      rfl
    · rw [escState_append, hst₁, hst₂]
    · rw [List.mem_append]
      rintro (h | h)
      · exact hn₁ h
      · exact hn₂ h

/-- A rendered row strips to exactly the row's cell characters and contains
no newline. -/
theorem renderRowData_strip (v : VT) (y : Nat)
    (hc : ∀ x, cellChar (vtCell v x y) ≠ '\x1b' ∧ cellChar (vtCell v x y) ≠ '\n') :
    stripEsc (renderRowData v y) =
      (List.range v.cols).map (fun x => cellChar (vtCell v x y)) ∧
    '\n' ∉ renderRowData v y := by
  obtain ⟨δ, hout, hstrip, hst, hn⟩ :=
    foldSteps_strip v y (List.range v.cols) ⟨0, 0, false, []⟩ (fun x _ => hc x)
  unfold renderRowData stripEsc
  dsimp only
  rw [hout]
  simp only [List.nil_append]
  constructor
  · rw [stripEscAux_append, hstrip, hst]
    split
    · rw [show stripEscAux false escReset = [] from rfl, List.append_nil]
    · rw [show stripEscAux false ([] : List Char) = [] from rfl, List.append_nil]
  · rw [List.mem_append]
    rintro (h | h)
    · exact hn h
    · revert h
      split
      · decide
      · simp

/-- Visible length of a rendered row. -/
theorem renderRowData_visibleLen (v : VT) (y : Nat)
    (hc : ∀ x, cellChar (vtCell v x y) ≠ '\x1b' ∧ cellChar (vtCell v x y) ≠ '\n') :
    (stripEsc (renderRowData v y)).length = v.cols := by
  rw [(renderRowData_strip v y hc).1, List.length_map, List.length_range]

/-- Folding the render step only ever appends to the accumulated output. -/
theorem foldSteps_mono (v : VT) (y : Nat) (xs : List Nat) (st : RSt) :
    ∃ δ, (xs.foldl (renderStep v y) st).out = st.out ++ δ := by
  induction xs generalizing st with
  | nil => exact ⟨[], by simp⟩
  | cons x xs ih =>
    obtain ⟨esc, _, hout⟩ := renderStep_out v y st x
    obtain ⟨δ, hδ⟩ := ih (renderStep v y st x)
    exact ⟨(esc ++ [cellChar (vtCell v x y)]) ++ δ, by
      rw [List.foldl_cons, hδ, hout, List.append_assoc]⟩

/-- A rendered row of a grid with at least one column is nonempty. -/
theorem renderRowData_ne_nil (v : VT) (y : Nat) (hcols : 1 ≤ v.cols) :
    renderRowData v y ≠ [] := by
  unfold renderRowData
  dsimp only
  have hr : List.range v.cols = 0 :: List.map Nat.succ (List.range (v.cols - 1)) := by
    conv_lhs => rw [show v.cols = (v.cols - 1) + 1 by omega]
    rw [List.range_succ_eq_map]
  rw [hr, List.foldl_cons]
  obtain ⟨esc, _, hout⟩ := renderStep_out v y ⟨0, 0, false, []⟩ 0
  obtain ⟨δ, hδ⟩ := foldSteps_mono v y _ (renderStep v y ⟨0, 0, false, []⟩ 0)
  rw [hδ, hout]
  simp

theorem intercalate_cons_ne_nil (x : List Char) (xs : List (List Char))
    (hx : x ≠ []) : List.intercalate ['\n'] (x :: xs) ≠ [] := by
  cases xs with
  | nil => simpa [List.intercalate, List.intersperse]
  | cons y ys =>
    simp only [List.intercalate, List.intersperse, List.flatten]
    simp [hx]

/-- The frame of a non-degenerate grid is a nonempty string. -/
theorem renderFrame_ne_empty (v : VT) (hrows : 1 ≤ v.rows) (hcols : 1 ≤ v.cols) :
    renderFrame v ≠ "" := by
  intro h
  have hdata : renderFrameData v = [] := congrArg String.data h
  unfold renderFrameData at hdata
  have hr : List.range v.rows = 0 :: List.map Nat.succ (List.range (v.rows - 1)) := by
    conv_lhs => rw [show v.rows = (v.rows - 1) + 1 by omega]
    rw [List.range_succ_eq_map]
  rw [hr, List.map_cons] at hdata
  exact intercalate_cons_ne_nil _ _ (renderRowData_ne_nil v 0 hcols) hdata

/-! ## The screen-buffer resize (spec-modelled vt10x behavior) -/

theorem vtCell_vtResize (v : VT) (w h x y : Nat) :
    vtCell (vtResize v w h) x y =
      if y < h ∧ x < w then vtCell v x y else blankCell := by
  unfold vtResize vtCell
  dsimp only
  simp only [List.getD_eq_getElem?_getD, List.getElem?_map]
  by_cases hy : y < h
  · rw [show ((List.range h)[y]?) = some y from List.getElem?_range hy]
    simp only [Option.map_some', Option.getD_some, List.getElem?_map]
    by_cases hx : x < w
    · rw [show ((List.range w)[x]?) = some x from List.getElem?_range hx]
      simp [hx, hy]
    · rw [show ((List.range w)[x]?) = none from
        List.getElem?_eq_none (by simpa using hx)]
      simp [hx]
  · rw [show ((List.range h)[y]?) = none from
      List.getElem?_eq_none (by simpa using hy)]
    simp [hy]

theorem vtWF_vtResize {v : VT} (hv : vtWF v) (w h : Nat) :
    vtWF (vtResize v w h) := by
  intro x y
  rw [vtCell_vtResize]
  split
  · exact hv x y
  · exact ⟨by decide, by decide⟩

/-- The lines of a frame of a well-formed grid: exactly `rows` of them,
none containing a newline, each showing exactly `cols` visible characters. -/
theorem renderFrame_lines (v : VT) (hv : vtWF v) :
    ∃ L : List (List Char),
      (renderFrame v).data = List.intercalate ['\n'] L ∧
      L.length = v.rows ∧
      ∀ l ∈ L, '\n' ∉ l ∧ (stripEsc l).length = v.cols := by
  refine ⟨(List.range v.rows).map (renderRowData v), rfl, by simp, ?_⟩
  intro l hl
  rw [List.mem_map] at hl
  obtain ⟨y, _, rfl⟩ := hl
  exact ⟨(renderRowData_strip v y (fun x => hv x y)).2,
    renderRowData_visibleLen v y (fun x => hv x y)⟩

/-! ## Render cache behavior -/

theorem render_none {t : Terminal} (h : t.vt = none) : t.Render = ("", t) := by
  unfold Terminal.Render
  rw [h]

theorem render_cached {t : Terminal} {v : VT} (h : t.vt = some v)
    (hd : t.dirty = false) (hl : t.lastRender ≠ "") :
    t.Render = (t.lastRender, t) := by
  unfold Terminal.Render
  rw [h]
  dsimp only
  rw [if_pos ⟨hd, hl⟩]

theorem render_fresh {t : Terminal} {v : VT} (h : t.vt = some v)
    (hg : ¬(t.dirty = false ∧ t.lastRender ≠ "")) :
    t.Render = (renderFrame v,
      { t with lastRender := renderFrame v, dirty := false }) := by
  unfold Terminal.Render
  rw [h]
  dsimp only
  rw [if_neg hg]

theorem vtCell_vtNew (w h x y : Nat) : vtCell (vtNew w h) x y = blankCell := by
  unfold vtNew vtCell
  dsimp only
  simp only [List.getD_eq_getElem?_getD, List.getElem?_map]
  by_cases hy : y < h
  · rw [show ((List.range h)[y]?) = some y from List.getElem?_range hy]
    simp only [Option.map_some', Option.getD_some, List.getElem?_map]
    by_cases hx : x < w
    · rw [show ((List.range w)[x]?) = some x from List.getElem?_range hx]
      simp
    · rw [show ((List.range w)[x]?) = none from
        List.getElem?_eq_none (by simpa using hx)]
      simp
  · rw [show ((List.range h)[y]?) = none from
      List.getElem?_eq_none (by simpa using hy)]
    simp

theorem vtWF_vtNew (w h : Nat) : vtWF (vtNew w h) := by
  intro x y
  rw [vtCell_vtNew]
  exact ⟨by decide, by decide⟩

theorem resize_fields (t : Terminal) (w h : Int) (hw : 1 ≤ w) (hh : 1 ≤ h) :
    (t.Resize w h).vt = t.vt.map (fun v => vtResize v w.toNat h.toNat) ∧
    (t.Resize w h).dirty = true ∧ (t.Resize w h).lastRender = "" := by
  unfold Terminal.Resize
  rw [if_neg (by omega)]
  dsimp only
  refine ⟨?_, ?_, ?_⟩ <;> (split <;> rfl)

/-- C2: rendering twice with no intervening mutation returns byte-identical
strings; on a started terminal with a non-degenerate screen the first call
caches a nonempty frame and clears the dirty flag, so the second call is
answered from the cache. -/
theorem render_twice_identical_and_cached (t : Terminal) :
    ((t.Render.2).Render).1 = t.Render.1 ∧
    (∀ v, t.vt = some v → 1 ≤ v.rows → 1 ≤ v.cols →
      (t.Render.2).dirty = false ∧ (t.Render.2).lastRender = t.Render.1 ∧
      t.Render.1 ≠ "") := by
  constructor
  · cases hvt : t.vt with
    | none =>
      rw [render_none hvt]
      dsimp only
      rw [render_none hvt]
    | some v =>
      by_cases hg : t.dirty = false ∧ t.lastRender ≠ ""
      · rw [render_cached hvt hg.1 hg.2]
        dsimp only
        rw [render_cached hvt hg.1 hg.2]
      · rw [render_fresh hvt hg]
        dsimp only
        by_cases he : renderFrame v = ""
        · rw [render_fresh (t := { t with lastRender := renderFrame v, dirty := false })
            (v := v) hvt (by rw [he]; simp)]
        · rw [render_cached (t := { t with lastRender := renderFrame v, dirty := false })
            (v := v) hvt rfl he]
  · intro v hvt hr hc
    have hne : renderFrame v ≠ "" := renderFrame_ne_empty v hr hc
    by_cases hg : t.dirty = false ∧ t.lastRender ≠ ""
    · rw [render_cached hvt hg.1 hg.2]
      exact ⟨hg.1, rfl, hg.2⟩
    · rw [render_fresh hvt hg]
      exact ⟨rfl, rfl, hne⟩

/-- Witness for C2 at a started 3×2 terminal. -/
theorem render_twice_identical_and_cached_witness :
    ((termStarted.Render.2).Render).1 = termStarted.Render.1 ∧
    (termStarted.Render.2).dirty = false ∧
    (termStarted.Render.2).lastRender = termStarted.Render.1 ∧
    termStarted.Render.1 ≠ "" := by
  have h := render_twice_identical_and_cached termStarted
  exact ⟨h.1, h.2 (vtNew 3 2) rfl (by decide) (by decide)⟩

/-- C3: on a started terminal, `Resize(w, h)` with positive dimensions
followed immediately by `Render()` yields a frame of exactly `h`
newline-separated lines, each showing exactly `w` visible characters
(escape sequences not counted), whatever the previous buffer content. -/
theorem resize_then_render_dimensions (t : Terminal) (v : VT) (w h : Nat)
    (hvt : t.vt = some v) (hv : vtWF v) (hw : 1 ≤ w) (hh : 1 ≤ h) :
    ∃ L : List (List Char),
      (((t.Resize (w : Int) (h : Int)).Render).1).data =
        List.intercalate ['\n'] L ∧
      L.length = h ∧
      ∀ l ∈ L, '\n' ∉ l ∧ (stripEsc l).length = w := by
  obtain ⟨h1, h2, h3⟩ :=
    resize_fields t (w : Int) (h : Int) (by exact_mod_cast hw) (by exact_mod_cast hh)
  have hvt' : (t.Resize (w : Int) (h : Int)).vt = some (vtResize v w h) := by
    rw [h1, hvt]
    simp
  have hrender := render_fresh hvt' (by rw [h2]; simp)
  obtain ⟨L, hL1, hL2, hL3⟩ := renderFrame_lines (vtResize v w h) (vtWF_vtResize hv w h)
  refine ⟨L, ?_, hL2, hL3⟩
  rw [hrender]
  exact hL1

/-- Witness for C3: resize a started 3×2 terminal to 2×2. -/
theorem resize_then_render_dimensions_witness :
    ∃ L : List (List Char),
      (((termStarted.Resize (2 : Int) (2 : Int)).Render).1).data =
        List.intercalate ['\n'] L ∧
      L.length = 2 ∧
      ∀ l ∈ L, '\n' ∉ l ∧ (stripEsc l).length = 2 :=
  resize_then_render_dimensions termStarted (vtNew 3 2) 2 2 rfl
    (vtWF_vtNew 3 2) (by decide) (by decide)

/-- C5: with a nil pty handle — before `Start`, or after `Close`, which nils
the handle — `Write` returns `(0, nil)` for every input, raising no error
and leaving the terminal state untouched. -/
theorem write_nil_pty_discards (t : Terminal) (data : List Nat) :
    (t.ptmx = false → t.Write data = ((0, none), t)) ∧
    ((t.Close).1.ptmx = false) ∧
    ((t.Close).1.Write data = ((0, none), (t.Close).1)) := by
  refine ⟨?_, rfl, ?_⟩
  · intro h
    unfold Terminal.Write
    rw [if_pos h]
  · unfold Terminal.Write
    rw [if_pos (show (t.Close).1.ptmx = false from rfl)]

/-- Witness for C5 at a freshly created (never started) terminal. -/
theorem write_nil_pty_discards_witness :
    (Terminal.New 80 24 "/w").Write [104, 105] =
      ((0, none), Terminal.New 80 24 "/w") :=
  (write_nil_pty_discards (Terminal.New 80 24 "/w") [104, 105]).1 rfl

/-- C10: `Resize` with a non-positive width or height is a complete no-op:
every field of the terminal — dimensions, dirty flag, render cache, screen
buffer, pty window size — is left exactly as it was. -/
theorem resize_nonpositive_noop (t : Terminal) (w h : Int)
    (hwh : w < 1 ∨ h < 1) : t.Resize w h = t := by
  unfold Terminal.Resize
  rw [if_pos hwh]

/-- Witness for C10: resizing to width 0 changes nothing. -/
theorem resize_nonpositive_noop_witness :
    termStarted.Resize 0 24 = termStarted :=
  resize_nonpositive_noop termStarted 0 24 (Or.inl (by decide))

/-- C4: `Subscribe` registers and returns a fresh, initially empty capacity-1
queue; a broadcast performs a non-blocking send to every registered queue —
an empty queue receives exactly one notification, a full queue is left as-is
— and a queue within capacity stays within capacity. -/
theorem subscribe_fresh_broadcast_coalesces (t : Terminal) :
    ((t.Subscribe).2.subscribers = t.subscribers ++ [((t.Subscribe).1, 0)]) ∧
    ((∀ p ∈ t.subscribers, p.1 < t.nextCh) →
      (t.Subscribe).1 ∉ t.subscribers.map Prod.fst) ∧
    ((t.broadcast).subscribers =
      t.subscribers.map (fun p => (p.1, if p.2 = 0 then 1 else p.2))) ∧
    (∀ q ≤ 1, trySend q ≤ 1) := by
  refine ⟨rfl, ?_, ?_, ?_⟩
  · intro hlt hmem
    rw [List.mem_map] at hmem
    obtain ⟨p, hp, hfst⟩ := hmem
    exact absurd (hfst ▸ hlt p hp) (lt_irrefl _)
  · unfold Terminal.broadcast
    dsimp only
    apply List.map_congr_left
    intro p _
    unfold trySend
    rcases p with ⟨i, q⟩
    cases q <;> simp
  · intro q hq
    unfold trySend
    split <;> omega

/-- Witness for C4: subscribing then broadcasting on a concrete terminal. -/
theorem subscribe_fresh_broadcast_coalesces_witness :
    ((termStarted.Subscribe).2.subscribers =
      termStarted.subscribers ++ [((termStarted.Subscribe).1, 0)]) ∧
    (termStarted.Subscribe).1 ∉ termStarted.subscribers.map Prod.fst ∧
    trySend 1 ≤ 1 := by
  have h := subscribe_fresh_broadcast_coalesces termStarted
  exact ⟨h.1, h.2.1 (by decide), h.2.2.2 1 (by decide)⟩

/-! ## Client-list structure -/

theorem findIdx?_decomp (p : Client → Bool) (l₁ : List Client) (c : Client)
    (l₂ : List Client) (h₁ : ∀ a ∈ l₁, p a = false) (hc : p c = true) :
    ∀ i, List.findIdx? p (l₁ ++ c :: l₂) i = some (i + l₁.length) := by
  induction l₁ with
  | nil =>
    intro i
    simp [List.findIdx?_cons, hc]
  | cons a as ih =>
    intro i
    rw [List.cons_append, List.findIdx?_cons,
      if_neg (by simp [h₁ a (List.mem_cons_self a as)])]
    rw [ih (fun b hb => h₁ b (List.mem_cons_of_mem a hb)) (i + 1)]
    simp only [List.length_cons]
    congr 1
    omega

theorem getD_decomp (l₁ : List Client) (c d : Client) (l₂ : List Client) :
    (l₁ ++ c :: l₂).getD l₁.length d = c := by
  rw [List.getD_eq_getElem?_getD, List.getElem?_append_right (le_refl _)]
  simp

theorem remove_decomp (l₁ : List Client) (c : Client) (l₂ : List Client) :
    remove (l₁ ++ c :: l₂) l₁.length =
      if l₂ = [] then l₁ else l₁ ++ (l₂.getLast?.getD c) :: l₂.dropLast := by
  unfold remove
  cases l₂ with
  | nil =>
    rw [if_pos rfl, List.getLast?_concat]
    dsimp only
    rw [List.set_append, if_neg (lt_irrefl _), Nat.sub_self, List.set_cons_zero,
      List.dropLast_append_cons]
    simp
  | cons b bs =>
    rw [if_neg (by simp)]
    rw [List.getLast?_append, List.getLast?_cons]
    dsimp only [Option.or_some]
    rw [List.set_append, if_neg (lt_irrefl _), Nat.sub_self, List.set_cons_zero,
      List.dropLast_append_cons,
      List.dropLast_cons_of_ne_nil (by simp : (b :: bs) ≠ [])]

theorem remove_length (s : List Client) (i : Nat) (hs : s ≠ []) :
    (remove s i).length = s.length - 1 := by
  unfold remove
  cases hl : s.getLast? with
  | none => exact absurd (List.getLast?_eq_none_iff.mp hl) hs
  | some a => simp [List.length_dropLast, List.length_set]

/-- C6 counterexample: clients attach in order A, B, C, but after
`RemoveClient "A")` the swap-with-last deletion reports the remaining
clients as C, B — not their attach order B, C. -/
theorem getclients_order_counterexample :
    roomABC.GetClients.map Client.ID = ["A", "B", "C"] ∧
    ((roomABC.RemoveClient "A").1.GetClients).map Client.ID = ["C", "B"] := by
  exact ⟨by decide, by decide⟩

/-- C6 (amended): `GetClients` returns exactly the current connection list;
`AddClient` with a fresh id appends at the tail, preserving existing order,
but removal swaps the last client into the removed slot and truncates, so
attach order survives only when the removed client is the last one. -/
theorem clients_order_swap_remove :
    (∀ (r : Room) (c : Client), (∀ a ∈ r.Connections, a.ID ≠ c.ID) →
      (r.AddClient c).1.Connections = r.Connections ++ [c]) ∧
    (∀ (r : Room) (x : String) (l₁ : List Client) (c : Client) (l₂ : List Client),
      r.Connections = l₁ ++ c :: l₂ → (∀ a ∈ l₁, a.ID ≠ x) → c.ID = x →
      (r.RemoveClient x).1.Connections =
        if l₂ = [] then l₁ else l₁ ++ (l₂.getLast?.getD c) :: l₂.dropLast) ∧
    (∀ r : Room, r.GetClients = r.Connections) := by
  refine ⟨?_, ?_, fun _ => rfl⟩
  · intro r c h
    unfold Room.AddClient
    dsimp only
    rw [show r.Connections.findIdx? (fun a => a.ID == c.ID) = none from
      List.findIdx?_eq_none_iff.mpr (fun a ha => by simpa using h a ha)]
  · intro r x l₁ c l₂ hconn h₁ hc
    unfold Room.RemoveClient
    dsimp only
    have hf : r.Connections.findIdx? (fun a => a.ID == x) = some l₁.length := by
      rw [hconn]
      simpa using findIdx?_decomp (fun a => a.ID == x) l₁ c l₂
        (fun a ha => by simpa using h₁ a ha) (by simpa using hc) 0
    rw [hf]
    dsimp only
    rw [hconn, remove_decomp]

/-- Witness for the amended C6 at concrete rooms. -/
theorem clients_order_swap_remove_witness :
    (roomA.AddClient clientB).1.Connections = roomA.Connections ++ [clientB] ∧
    (roomABC.RemoveClient "A").1.Connections = [clientC, clientB] := by
  have h := clients_order_swap_remove
  refine ⟨h.1 roomA clientB (by decide), ?_⟩
  have h2 := h.2.1 roomABC "A" [] clientA [clientB, clientC] rfl
    (by simp) (by decide)
  simpa using h2

/-- C7: adding a client whose id is already present replaces the old
registration — the client count does not change — and closes the previously
registered client's event queue exactly once. -/
theorem addclient_duplicate_id (r : Room) (x : String) (q : Nat)
    (l₁ l₂ : List Client) (c newc : Client)
    (hconn : r.Connections = l₁ ++ c :: l₂)
    (h₁ : ∀ a ∈ l₁, a.ID ≠ x) (hc : c.ID = x) (_h₂ : ∀ a ∈ l₂, a.ID ≠ x)
    (hq : c.Events = some q) (hnew : newc.ID = x) :
    (r.AddClient newc).1.ClientCount = r.ClientCount ∧
    (r.AddClient newc).2.1 = [q] := by
  have hf : r.Connections.findIdx? (fun a => a.ID == newc.ID) = some l₁.length := by
    rw [hconn, hnew]
    simpa using findIdx?_decomp (fun a => a.ID == x) l₁ c l₂
      (fun a ha => by simpa using h₁ a ha) (by simpa using hc) 0
  unfold Room.AddClient
  dsimp only
  rw [hf]
  dsimp only
  constructor
  · unfold Room.ClientCount
    dsimp only
    rw [List.length_append, hconn, remove_length _ _ (by simp)]
    simp only [List.length_append, List.length_cons, List.length_nil]
    omega
  · rw [hconn, getD_decomp, hq]
    rfl

/-- Witness for C7: reconnecting A replaces the old registration. -/
theorem addclient_duplicate_id_witness :
    (roomA.AddClient clientA2).1.ClientCount = roomA.ClientCount ∧
    (roomA.AddClient clientA2).2.1 = [1] :=
  addclient_duplicate_id roomA "A" 1 [] [] clientA clientA2 rfl
    (by simp) rfl (by simp) rfl rfl

/-! ## Registry lemmas -/

theorem lookupRoom_filter_ne (rs : List (String × Room)) (k : String) :
    lookupRoom (rs.filter (fun p => p.1 ≠ k)) k = none := by
  induction rs with
  | nil => rfl
  | cons p rest ih =>
    by_cases hp : p.1 = k
    · rw [List.filter_cons, if_neg (by simp [hp])]
      exact ih
    · rw [List.filter_cons, if_pos (by simpa using hp)]
      unfold lookupRoom
      rw [if_neg hp]
      exact ih

theorem lookupRoom_update {rs : List (String × Room)} {k : String} {r0 : Room}
    (h : lookupRoom rs k = some r0) (r : Room) :
    lookupRoom (updateRoom rs k r) k = some r := by
  induction rs with
  | nil => exact absurd h (by simp [lookupRoom])
  | cons p rest ih =>
    unfold lookupRoom at h
    unfold updateRoom
    by_cases hp : p.1 = k
    · rw [List.map_cons, if_pos hp]
      unfold lookupRoom
      rw [if_pos rfl]
    · rw [if_neg hp] at h
      rw [List.map_cons, if_neg hp]
      unfold lookupRoom
      rw [if_neg hp]
      exact ih h

/-- C8: once `LeaveRoom` drains a registered room to zero clients it closes
the room's terminal when one exists, deletes the workspace directory,
deregisters the room — a subsequent `GetRoom` fails with the room-not-found
error — and returns true; when clients remain it returns false and the room
stays registered (with the updated client list). -/
theorem leaveroom_teardown (m : Manager) (rid cid : String) (room : Room)
    (hlook : lookupRoom m.rooms rid = some room) :
    (((room.RemoveClient cid).1.ClientCount = 0 →
      (m.LeaveRoom rid cid).tornDown = true ∧
      (m.LeaveRoom rid cid).manager.GetRoom rid =
        Except.error MgrErr.RoomNotFound ∧
      (m.LeaveRoom rid cid).closedTerminal = room.Terminal.isSome ∧
      (room.WorkspaceDir ≠ "" →
        (m.LeaveRoom rid cid).removedDirs = [room.WorkspaceDir])) ∧
    ((room.RemoveClient cid).1.ClientCount ≠ 0 →
      (m.LeaveRoom rid cid).tornDown = false ∧
      (m.LeaveRoom rid cid).manager.GetRoom rid =
        Except.ok (room.RemoveClient cid).1)) := by
  have hterm : (room.RemoveClient cid).1.Terminal = room.Terminal := by
    unfold Room.RemoveClient
    dsimp only
    split <;> rfl
  have hdir : (room.RemoveClient cid).1.WorkspaceDir = room.WorkspaceDir := by
    unfold Room.RemoveClient
    dsimp only
    split <;> rfl
  unfold Manager.LeaveRoom
  rw [hlook]
  dsimp only
  constructor
  · intro hzero
    rw [if_pos hzero]
    refine ⟨rfl, ?_, ?_, ?_⟩
    · unfold Manager.GetRoom
      dsimp only
      rw [lookupRoom_filter_ne]
    · dsimp only
      rw [hterm]
    · intro hne
      dsimp only
      rw [hdir, if_pos hne]
  · intro hnonzero
    rw [if_neg hnonzero]
    refine ⟨rfl, ?_⟩
    unfold Manager.GetRoom
    dsimp only
    rw [lookupRoom_update hlook]

/-- Witness for C8: A leaving `roomA` tears the room down; B leaving
`roomABC` does not. -/
theorem leaveroom_teardown_witness :
    ((mgrA.LeaveRoom "r2" "A").tornDown = true ∧
      (mgrA.LeaveRoom "r2" "A").manager.GetRoom "r2" =
        Except.error MgrErr.RoomNotFound ∧
      (mgrA.LeaveRoom "r2" "A").removedDirs = ["/w/solo"]) ∧
    ((mgrABC.LeaveRoom "r1" "B").tornDown = false) := by
  have h1 := leaveroom_teardown mgrA "r2" "A" roomA (by decide)
  have h2 := leaveroom_teardown mgrABC "r1" "B" roomABC (by decide)
  obtain ⟨ha, hb, -, hd⟩ := h1.1 (by decide)
  refine ⟨⟨ha, hb, ?_⟩, (h2.2 (by decide)).1⟩
  simpa using hd (by decide)

/-- C9: the workspace name of a room is the slug of a non-empty slugifiable
description; an empty or unslugifiable description falls back to a random
`adjective-noun` pair matching `^[a-z]+-[a-z]+$` and never causes a failure
(directory creation permitting); "Fix Auth Bug" slugifies to
`fix-auth-bug`. -/
theorem createroom_workspace_name :
    (∀ (desc : String) (a n : Nat), slugify desc = "" →
      checkPairName (workspaceNameOf desc a n) = true) ∧
    (∀ (desc : String) (a n : Nat), slugify desc ≠ "" →
      workspaceNameOf desc a n = slugify desc) ∧
    (∀ a n : Nat, workspaceNameOf "Fix Auth Bug" a n = "fix-auth-bug") ∧
    (∀ (m : Manager) (host desc rid : String) (a n : Nat) (bOk cOk : Bool),
      (m.CreateRoom host desc rid a n bOk cOk true).isOk = true) := by
  have hpair : ∀ i, i < 8 → ∀ j, j < 8 →
      checkPairName (adjectives.getD i "" ++ "-" ++ nouns.getD j "") = true := by
    decide
  refine ⟨?_, ?_, ?_, ?_⟩
  · intro desc a n h
    unfold workspaceNameOf
    dsimp only
    have hwn : (if desc ≠ "" then slugify desc else "") = "" := by
      split
      · exact h
      · rfl
    rw [hwn, if_pos rfl]
    exact hpair _ (Nat.mod_lt _ (by decide)) _ (Nat.mod_lt _ (by decide))
  · intro desc a n h
    have hd : desc ≠ "" := by
      intro he
      rw [he] at h
      exact h rfl
    unfold workspaceNameOf
    dsimp only
    rw [if_pos hd, if_neg h]
  · intro a n
    unfold workspaceNameOf
    dsimp only
    rw [if_pos (by decide : ("Fix Auth Bug" : String) ≠ "")]
    rw [if_neg (by decide : ¬(slugify "Fix Auth Bug" = ""))]
    decide
  · intro m host desc rid a n bOk cOk
    unfold Manager.CreateRoom
    dsimp only
    rw [if_neg (by simp)]
    rfl

/-- Witness for C9 at concrete descriptions and random draws. -/
theorem createroom_workspace_name_witness :
    checkPairName (workspaceNameOf "" 3 5) = true ∧
    workspaceNameOf "Fix Auth Bug" 0 0 = slugify "Fix Auth Bug" ∧
    workspaceNameOf "Fix Auth Bug" 0 0 = "fix-auth-bug" ∧
    (mgrA.CreateRoom "h" "" "rid" 3 5 true false true).isOk = true := by
  have h := createroom_workspace_name
  exact ⟨h.1 "" 3 5 rfl, h.2.1 "Fix Auth Bug" 0 0 (by decide),
    h.2.2.1 0 0, h.2.2.2 mgrA "h" "" "rid" 3 5 true false⟩

/-! ## Run-length structure of a rendered row -/

/-- The render-loop body, written with the effective (cursor-swapped) pair
made explicit; equal to `renderStep` by unfolding. -/
theorem renderStep_eq (v : VT) (y : Nat) (st : RSt) (x : Nat) :
    renderStep v y st x =
      if (effFG v x y != st.prevFG || effBG v x y != st.prevBG ||
          (isCursorAt v x y && !st.inStyle)) then
        { prevFG := effFG v x y, prevBG := effBG v x y,
          inStyle := (styleChange (isCursorAt v x y) (effFG v x y) (effBG v x y)
            st.inStyle).2,
          out := st.out ++ (styleChange (isCursorAt v x y) (effFG v x y)
            (effBG v x y) st.inStyle).1 ++ [cellChar (vtCell v x y)] }
      else { st with out := st.out ++ [cellChar (vtCell v x y)] } := rfl

/-- When a cell's effective color pair equals the previously emitted pair and
the cursor fallback does not fire, the step emits no escape at all: just the
cell character. -/
theorem renderStep_noop (v : VT) (y x : Nat) (st : RSt)
    (h1 : effFG v x y = st.prevFG) (h2 : effBG v x y = st.prevBG)
    (h3 : ¬(isCursorAt v x y = true ∧ st.inStyle = false)) :
    renderStep v y st x = { st with out := st.out ++ [cellChar (vtCell v x y)] } := by
  have hb : (isCursorAt v x y && !st.inStyle) = false := by
    cases hc : isCursorAt v x y
    · simp
    · cases hs : st.inStyle
      · exact absurd ⟨hc, hs⟩ h3
      · simp [hs]
  rw [renderStep_eq, h1, h2, if_neg (by simp [hb])]

/-- A non-cursor cell seen from the per-row start state earns exactly the
run's style escapes (possibly none) before its character. -/
theorem renderStep_first (v : VT) (y x f b : Nat)
    (hf : (vtCell v x y).fg = f) (hb : (vtCell v x y).bg = b)
    (hcur : isCursorAt v x y = false) :
    renderStep v y ⟨0, 0, false, []⟩ x =
      ⟨f, b, styledPair f b, stylePre f b ++ [cellChar (vtCell v x y)]⟩ := by
  have he1 : effFG v x y = f := by rw [effFG, hcur]; simpa using hf
  have he2 : effBG v x y = b := by rw [effBG, hcur]; simpa using hb
  rw [renderStep_eq, he1, he2, hcur]
  by_cases h0 : f = 0 ∧ b = 0
  · rw [if_neg (by simp [h0.1, h0.2])]
    have : styledPair 0 0 = false := by decide
    simp [h0.1, h0.2, styledPair, stylePre]
  · rw [if_pos (by
      simp only [Bool.false_and, Bool.or_false, Bool.or_eq_true, bne_iff_ne, ne_eq]
      omega)]
    unfold styleChange stylePre
    dsimp only
    rw [if_neg (by simp)]
    simp

/-- A cell whose effective pair is emittable and differs from the previous
pair, reached while a style is in effect, earns a reset followed by its two
color escapes. -/
theorem renderStep_change (v : VT) (y x : Nat) (st : RSt) (p q : Nat)
    (he1 : effFG v x y = p) (he2 : effBG v x y = q)
    (hp : 0 < p) (hp' : p < 256) (hq : 0 < q) (hq' : q < 256)
    (hne : p ≠ st.prevFG ∨ q ≠ st.prevBG) (hin : st.inStyle = true) :
    renderStep v y st x =
      ⟨p, q, true,
        st.out ++ escReset ++ fgEsc p ++ bgEsc q ++ [cellChar (vtCell v x y)]⟩ := by
  have hsty : styledPair p q = true := by
    unfold styledPair
    simp only [Bool.or_eq_true, Bool.and_eq_true, bne_iff_ne, ne_eq,
      decide_eq_true_eq]
    omega
  rw [renderStep_eq, he1, he2]
  rw [if_pos (by
    simp only [Bool.or_eq_true, bne_iff_ne, ne_eq]
    tauto)]
  unfold styleChange
  dsimp only
  rw [hin, hsty]
  have h1' : (p != 0 && decide (p < 256)) = true := by
    simp only [Bool.and_eq_true, bne_iff_ne, ne_eq, decide_eq_true_eq]
    omega
  have h2' : (q != 0 && decide (q < 256)) = true := by
    simp only [Bool.and_eq_true, bne_iff_ne, ne_eq, decide_eq_true_eq]
    omega
  rw [h1', h2']
  simp

/-- A run of non-cursor cells whose pair matches the previous pair appends
only its characters. -/
theorem foldSteps_const (v : VT) (y : Nat) (xs : List Nat) (st : RSt)
    (hx : ∀ x ∈ xs, (vtCell v x y).fg = st.prevFG ∧
      (vtCell v x y).bg = st.prevBG ∧ isCursorAt v x y = false) :
    xs.foldl (renderStep v y) st =
      { st with out := st.out ++ xs.map (fun x => cellChar (vtCell v x y)) } := by
  induction xs generalizing st with
  | nil => simp
  | cons x rest ih =>
    obtain ⟨hf, hb, hc⟩ := hx x (List.mem_cons_self x rest)
    have hstep : renderStep v y st x =
        { st with out := st.out ++ [cellChar (vtCell v x y)] } :=
      renderStep_noop v y x st
        (by rw [effFG, hc]; simpa using hf)
        (by rw [effBG, hc]; simpa using hb)
        (by rintro ⟨hcc, -⟩; rw [hc] at hcc; cases hcc)
    rw [List.foldl_cons, hstep]
    rw [ih { st with out := st.out ++ [cellChar (vtCell v x y)] }
      (fun a ha => hx a (List.mem_cons_of_mem x ha))]
    simp

/-- A nonempty run of non-cursor cells with one common pair, rendered from
the row-start state: one style block, then the characters. -/
theorem foldSteps_start_run (v : VT) (y : Nat) (x : Nat) (rest : List Nat)
    (f b : Nat)
    (hx : ∀ a ∈ x :: rest, (vtCell v a y).fg = f ∧ (vtCell v a y).bg = b ∧
      isCursorAt v a y = false) :
    (x :: rest).foldl (renderStep v y) ⟨0, 0, false, []⟩ =
      ⟨f, b, styledPair f b,
        stylePre f b ++ (x :: rest).map (fun a => cellChar (vtCell v a y))⟩ := by
  obtain ⟨hf, hb, hc⟩ := hx x (List.mem_cons_self x rest)
  rw [List.foldl_cons, renderStep_first v y x f b hf hb hc]
  rw [foldSteps_const v y rest _
    (fun a ha => by
      obtain ⟨h1, h2, h3⟩ := hx a (List.mem_cons_of_mem x ha)
      exact ⟨h1, h2, h3⟩)]
  simp

/-- A nonempty run of non-cursor cells with one common emittable pair that
differs from the previous pair, rendered while a style is in effect: a
reset, the run's two color escapes, then the characters. -/
theorem foldSteps_change_run (v : VT) (y : Nat) (x : Nat) (rest : List Nat)
    (st : RSt) (f b : Nat)
    (hf : 0 < f) (hf' : f < 256) (hb : 0 < b) (hb' : b < 256)
    (hne : f ≠ st.prevFG ∨ b ≠ st.prevBG) (hin : st.inStyle = true)
    (hx : ∀ a ∈ x :: rest, (vtCell v a y).fg = f ∧ (vtCell v a y).bg = b ∧
      isCursorAt v a y = false) :
    (x :: rest).foldl (renderStep v y) st =
      ⟨f, b, true,
        st.out ++ escReset ++ fgEsc f ++ bgEsc b ++
          (x :: rest).map (fun a => cellChar (vtCell v a y))⟩ := by
  obtain ⟨hcf, hcb, hcc⟩ := hx x (List.mem_cons_self x rest)
  rw [List.foldl_cons,
    renderStep_change v y x st f b
      (by rw [effFG, hcc]; simpa using hcf)
      (by rw [effBG, hcc]; simpa using hcb)
      hf hf' hb hb' hne hin]
  rw [foldSteps_const v y rest _
    (fun a ha => by
      obtain ⟨h1, h2, h3⟩ := hx a (List.mem_cons_of_mem x ha)
      exact ⟨h1, h2, h3⟩)]
  simp

theorem foldSteps_change_run' (v : VT) (y : Nat) (xs : List Nat)
    (hxs : xs ≠ []) (st : RSt) (f b : Nat)
    (hf : 0 < f) (hf' : f < 256) (hb : 0 < b) (hb' : b < 256)
    (hne : f ≠ st.prevFG ∨ b ≠ st.prevBG) (hin : st.inStyle = true)
    (hx : ∀ a ∈ xs, (vtCell v a y).fg = f ∧ (vtCell v a y).bg = b ∧
      isCursorAt v a y = false) :
    xs.foldl (renderStep v y) st =
      ⟨f, b, true,
        st.out ++ escReset ++ fgEsc f ++ bgEsc b ++
          xs.map (fun a => cellChar (vtCell v a y))⟩ := by
  cases xs with
  | nil => exact absurd rfl hxs
  | cons x rest =>
    exact foldSteps_change_run v y x rest st f b hf hf' hb hb' hne hin hx

theorem styledPair_pos (f b : Nat) (hf : 0 < f) (hf' : f < 256) :
    styledPair f b = true := by
  unfold styledPair
  simp only [Bool.or_eq_true, Bool.and_eq_true, bne_iff_ne, ne_eq,
    decide_eq_true_eq]
  omega

theorem stylePre_pos (f b : Nat) (hf : 0 < f) (hf' : f < 256)
    (hb : 0 < b) (hb' : b < 256) : stylePre f b = fgEsc f ++ bgEsc b := by
  unfold stylePre
  rw [if_pos (by simp only [Bool.and_eq_true, bne_iff_ne, ne_eq,
      decide_eq_true_eq]; omega),
    if_pos (by simp only [Bool.and_eq_true, bne_iff_ne, ne_eq,
      decide_eq_true_eq]; omega)]

theorem isCursorAt_false_of_row (v : VT) (y : Nat)
    (h : v.cursorVisible = false ∨ v.cursorY ≠ y) (x : Nat) :
    isCursorAt v x y = false := by
  unfold isCursorAt
  rcases h with h | h
  · simp [h]
  · have : (y == v.cursorY) = false := by
      simp only [beq_eq_false_iff_ne, ne_eq]
      exact fun he => h he.symm
    simp [this]

theorem isCursorAt_false_of_col (v : VT) (x y : Nat) (h : x ≠ v.cursorX) :
    isCursorAt v x y = false := by
  unfold isCursorAt
  have : (x == v.cursorX) = false := by
    simp only [beq_eq_false_iff_ne, ne_eq]
    exact h
  simp [this]

theorem isCursorAt_true (v : VT) (x y : Nat) (h1 : v.cursorVisible = true)
    (h2 : x = v.cursorX) (h3 : y = v.cursorY) : isCursorAt v x y = true := by
  unfold isCursorAt
  simp [h1, h2, h3]

/-- C1 counterexample: on a row of black-on-black cells (SGR `30;40`) with
the visible cursor on the first cell, the `\x1b[7m` fallback emitted for the
cursor is never reset before the second cell — whose color pair equals the
cursor's swapped pair — so the reverse-video attribute is in effect for a
non-cursor cell as well: the claim's "exactly the cell at the cursor
position (and no other cell)" fails. -/
theorem render_cursor_reverse_bleeds :
    vtRev.cursorVisible = true ∧ vtRev.cursorX = 0 ∧ vtRev.cursorY = 0 ∧
    vtRev.cols = 2 ∧ vtRev.rows = 1 ∧
    renderFrame vtRev = "\x1b[7m  \x1b[0m" ∧
    revFlags (renderFrame vtRev) = [true, true] :=
  ⟨rfl, rfl, rfl, rfl, rfl, by decide, by decide⟩

/-- C1 (amended): `Render` walks the grid row-major and joins the rows with
newlines; within a row it re-emits escapes only when a cell's effective
(cursor-swapped) color pair differs from the previously emitted one or the
cursor fallback fires, so a uniformly-styled cursor-free row earns a single
style block; the cursor cell—and, when its swapped pair is emittable, only
it—is rendered with foreground and background swapped. -/
theorem render_rowmajor_runs_cursor :
    (∀ v : VT,
      (renderFrame v).data =
        List.intercalate ['\n'] ((List.range v.rows).map (renderRowData v)) ∧
      ((List.range v.rows).map (renderRowData v)).length = v.rows) ∧
    (∀ (v : VT) (y x : Nat) (st : RSt),
      effFG v x y = st.prevFG → effBG v x y = st.prevBG →
      ¬(isCursorAt v x y = true ∧ st.inStyle = false) →
      renderStep v y st x =
        { st with out := st.out ++ [cellChar (vtCell v x y)] }) ∧
    (∀ (v : VT) (y f b : Nat), 1 ≤ v.cols →
      (∀ x < v.cols, (vtCell v x y).fg = f ∧ (vtCell v x y).bg = b) →
      (v.cursorVisible = false ∨ v.cursorY ≠ y) →
      renderRowData v y =
        stylePre f b ++
          (List.range v.cols).map (fun x => cellChar (vtCell v x y)) ++
          (if styledPair f b then escReset else [])) ∧
    (∀ (v : VT) (y k f b : Nat),
      v.cursorVisible = true → v.cursorX = k → v.cursorY = y →
      1 ≤ k → k + 1 < v.cols →
      0 < f → f < 256 → 0 < b → b < 256 → f ≠ b →
      (∀ x < v.cols, (vtCell v x y).fg = f ∧ (vtCell v x y).bg = b) →
      renderRowData v y =
        fgEsc f ++ bgEsc b ++
          (List.range k).map (fun x => cellChar (vtCell v x y)) ++
          escReset ++ fgEsc b ++ bgEsc f ++ [cellChar (vtCell v k y)] ++
          escReset ++ fgEsc f ++ bgEsc b ++
          ((List.range (v.cols - (k + 1))).map (fun i => k + 1 + i)).map
            (fun a => cellChar (vtCell v a y)) ++
          escReset) := by
  refine ⟨fun v => ⟨rfl, by simp⟩, renderStep_noop, ?_, ?_⟩
  · intro v y f b hcols huni hrow
    have hcur := isCursorAt_false_of_row v y hrow
    have hr : List.range v.cols = 0 :: List.map Nat.succ (List.range (v.cols - 1)) := by
      conv_lhs => rw [show v.cols = (v.cols - 1) + 1 by omega]
      rw [List.range_succ_eq_map]
    have hx : ∀ a ∈ (0 : Nat) :: List.map Nat.succ (List.range (v.cols - 1)),
        (vtCell v a y).fg = f ∧ (vtCell v a y).bg = b ∧
          isCursorAt v a y = false := by
      intro a ha
      rw [← hr, List.mem_range] at ha
      exact ⟨(huni a ha).1, (huni a ha).2, hcur a⟩
    unfold renderRowData
    dsimp only
    rw [hr, foldSteps_start_run v y 0 _ f b hx]
  · intro v y k f b hvis hcx hcy hk hkc hf hf' hb hb' hfb huni
    have hcurF : ∀ x, x ≠ k → isCursorAt v x y = false := fun x hx =>
      isCursorAt_false_of_col v x y (by rw [hcx]; exact hx)
    have hcurT : isCursorAt v k y = true := isCursorAt_true v k y hvis hcx.symm hcy.symm
    have hsplit : List.range v.cols =
        (List.range k ++ [k]) ++
          (List.range (v.cols - (k + 1))).map (fun i => k + 1 + i) := by
      conv_lhs => rw [show v.cols = (k + 1) + (v.cols - (k + 1)) by omega]
      rw [List.range_add, List.range_succ]
    have hrk : List.range k = 0 :: List.map Nat.succ (List.range (k - 1)) := by
      conv_lhs => rw [show k = (k - 1) + 1 by omega]
      rw [List.range_succ_eq_map]
    have hx1 : ∀ a ∈ (0 : Nat) :: List.map Nat.succ (List.range (k - 1)),
        (vtCell v a y).fg = f ∧ (vtCell v a y).bg = b ∧
          isCursorAt v a y = false := by
      intro a ha
      rw [← hrk, List.mem_range] at ha
      exact ⟨(huni a (by omega)).1, (huni a (by omega)).2, hcurF a (by omega)⟩
    have hseg1 : (List.range k).foldl (renderStep v y) ⟨0, 0, false, []⟩ =
        ⟨f, b, true,
          fgEsc f ++ bgEsc b ++
            (List.range k).map (fun a => cellChar (vtCell v a y))⟩ := by
      rw [hrk, foldSteps_start_run v y 0 _ f b hx1, ← hrk,
        stylePre_pos f b hf hf' hb hb', styledPair_pos f b hf hf']
    have hcellk := huni k (by omega)
    have hseg2 : renderStep v y
        ⟨f, b, true,
          fgEsc f ++ bgEsc b ++
            (List.range k).map (fun a => cellChar (vtCell v a y))⟩ k =
        ⟨b, f, true,
          (fgEsc f ++ bgEsc b ++
            (List.range k).map (fun a => cellChar (vtCell v a y))) ++
            escReset ++ fgEsc b ++ bgEsc f ++ [cellChar (vtCell v k y)]⟩ := by
      have := renderStep_change v y k
        ⟨f, b, true,
          fgEsc f ++ bgEsc b ++
            (List.range k).map (fun a => cellChar (vtCell v a y))⟩ b f
        (by rw [effFG, hcurT]; simpa using hcellk.2)
        (by rw [effBG, hcurT]; simpa using hcellk.1)
        hb hb' hf hf' (Or.inl (Ne.symm hfb)) rfl
      simpa [List.append_assoc] using this
    have hne3 : (List.range (v.cols - (k + 1))).map (fun i => k + 1 + i) ≠ [] := by
      simp only [ne_eq, List.map_eq_nil_iff, List.range_eq_nil]
      omega
    have hx3 : ∀ a ∈ (List.range (v.cols - (k + 1))).map (fun i => k + 1 + i),
        (vtCell v a y).fg = f ∧ (vtCell v a y).bg = b ∧
          isCursorAt v a y = false := by
      intro a ha
      rw [List.mem_map] at ha
      obtain ⟨i, hi, rfl⟩ := ha
      rw [List.mem_range] at hi
      exact ⟨(huni _ (by omega)).1, (huni _ (by omega)).2, hcurF _ (by omega)⟩
    have hseg3 := foldSteps_change_run' v y
      ((List.range (v.cols - (k + 1))).map (fun i => k + 1 + i)) hne3
      ⟨b, f, true,
        (fgEsc f ++ bgEsc b ++
          (List.range k).map (fun a => cellChar (vtCell v a y))) ++
          escReset ++ fgEsc b ++ bgEsc f ++ [cellChar (vtCell v k y)]⟩ f b
      hf hf' hb hb' (Or.inl hfb) rfl hx3
    unfold renderRowData
    dsimp only
    rw [hsplit, List.foldl_append, List.foldl_append, hseg1]
    simp only [List.foldl_cons, List.foldl_nil]
    simp only [hseg2, hseg3]
    simp [List.append_assoc]

/-- Witness for the amended C1: a uniformly styled cursor-free row earns one
style block, and with the cursor on the middle cell of a uniformly styled
row the swapped pair is emitted exactly at that cell. -/
theorem render_rowmajor_runs_cursor_witness :
    (renderRowData vtUniform 0 =
      stylePre 2 3 ++
        (List.range vtUniform.cols).map (fun x => cellChar (vtCell vtUniform x 0)) ++
        (if styledPair 2 3 then escReset else [])) ∧
    (renderRowData vtCursorMid 0 =
      fgEsc 2 ++ bgEsc 3 ++
        (List.range 1).map (fun x => cellChar (vtCell vtCursorMid x 0)) ++
        escReset ++ fgEsc 3 ++ bgEsc 2 ++ [cellChar (vtCell vtCursorMid 1 0)] ++
        escReset ++ fgEsc 2 ++ bgEsc 3 ++
        ((List.range (vtCursorMid.cols - (1 + 1))).map (fun i => 1 + 1 + i)).map
          (fun a => cellChar (vtCell vtCursorMid a 0)) ++
        escReset) := by
  have h := render_rowmajor_runs_cursor
  exact ⟨h.2.2.1 vtUniform 0 2 3 (by decide) (by decide) (Or.inl rfl),
    h.2.2.2 vtCursorMid 0 1 2 3 rfl rfl rfl (by decide) (by decide)
      (by decide) (by decide) (by decide) (by decide) (by decide) (by decide)⟩
